import Mathlib

/-!
Shallow embedding of the Taproot (BIP-341 style) commitment and spend-path
engine of this repository (src/service.js) together with proofs of the
spec's testable properties.

Bytes are modelled as `Nat` (each byte `< 256` on real inputs); byte strings
(JS `Buffer`) as `List Nat`.  Machine 32-bit words are `Nat` reduced
`% 2^32` wherever overflow matters.  External collaborators (the EC engine,
the transaction codec) are passed in explicitly as function-valued fields,
mirroring the `ecc` / `bitcoinjs-lib` modules the source imports.
-/

namespace Taproot

/-! ### SHA-256 and tagged hashing

Modelled from the spec: the `TaggedHash` primitive (§4.1) is
`SHA256(SHA256(tag) ‖ SHA256(tag) ‖ message)`; the SHA-256 function itself
is supplied by the external `bitcoin.crypto` module of bitcoinjs-lib and is
not part of src/, so it is embedded here from the standard definition the
spec refers to. -/

def rotr (n w : Nat) : Nat := w / 2 ^ n + w % 2 ^ n * 2 ^ (32 - n)

def shr (n w : Nat) : Nat := w / 2 ^ n

def ch (e f g : Nat) : Nat := (e &&& f) ^^^ ((e ^^^ 0xffffffff) &&& g)

def maj (a b c : Nat) : Nat := (a &&& b) ^^^ (a &&& c) ^^^ (b &&& c)

def bigSigma0 (a : Nat) : Nat := rotr 2 a ^^^ rotr 13 a ^^^ rotr 22 a

def bigSigma1 (e : Nat) : Nat := rotr 6 e ^^^ rotr 11 e ^^^ rotr 25 e

def smallSigma0 (x : Nat) : Nat := rotr 7 x ^^^ rotr 18 x ^^^ shr 3 x

def smallSigma1 (x : Nat) : Nat := rotr 17 x ^^^ rotr 19 x ^^^ shr 10 x

/-- The 64 SHA-256 round constants of FIPS 180-4 (written in decimal;
the first four are 0x428a2f98, 0x71374491, 0xb5c0fbcf, 0xe9b5dba5, …). -/
def sha256K : List Nat :=
  [1116352408, 1899447441, 3049323471, 3921009573, 961987163, 1508970993,
   2453635748, 2870763221, 3624381080, 310598401, 607225278, 1426881987,
   1925078388, 2162078206, 2614888103, 3248222580, 3835390401, 4022224774,
   264347078, 604807628, 770255983, 1249150122, 1555081692, 1996064986,
   2554220882, 2821834349, 2952996808, 3210313671, 3336571891, 3584528711,
   113926993, 338241895, 666307205, 773529912, 1294757372, 1396182291,
   1695183700, 1986661051, 2177026350, 2456956037, 2730485921, 2820302411,
   3259730800, 3345764771, 3516065817, 3600352804, 4094571909, 275423344,
   430227734, 506948616, 659060556, 883997877, 958139571, 1322822218,
   1537002063, 1747873779, 1955562222, 2024104815, 2227730452, 2361852424,
   2428436474, 2756734187, 3204031479, 3329325298]

structure Hash8 where
  a0 : Nat
  a1 : Nat
  a2 : Nat
  a3 : Nat
  a4 : Nat
  a5 : Nat
  a6 : Nat
  a7 : Nat
  deriving Repr, DecidableEq

/-- The eight SHA-256 initial hash values of FIPS 180-4 (in decimal;
0x6a09e667, 0xbb67ae85, …). -/
def sha256Init : Hash8 :=
  ⟨1779033703, 3144134277, 1013904242, 2773480762,
   1359893119, 2600822924, 528734635, 1541459225⟩

def sha256Round (st : Hash8) (kw : Nat) : Hash8 :=
  let t1 := (st.a7 + bigSigma1 st.a4 + ch st.a4 st.a5 st.a6 + kw) % 2 ^ 32
  let t2 := (bigSigma0 st.a0 + maj st.a0 st.a1 st.a2) % 2 ^ 32
  ⟨(t1 + t2) % 2 ^ 32, st.a0, st.a1, st.a2, (st.a3 + t1) % 2 ^ 32, st.a4, st.a5, st.a6⟩

def extendSchedule : Nat → List Nat → List Nat
  | 0, ws => ws
  | n + 1, ws =>
    let t := ws.length
    let s0 := smallSigma0 (ws.getD (t - 15) 0)
    let s1 := smallSigma1 (ws.getD (t - 2) 0)
    extendSchedule n (ws ++ [(ws.getD (t - 16) 0 + s0 + ws.getD (t - 7) 0 + s1) % 2 ^ 32])

def compressBlock (hs : Hash8) (block : List Nat) : Hash8 :=
  let ws := extendSchedule 48 block
  let st := (sha256K.zip ws).foldl (fun st p => sha256Round st ((p.1 + p.2) % 2 ^ 32)) hs
  ⟨(hs.a0 + st.a0) % 2 ^ 32, (hs.a1 + st.a1) % 2 ^ 32, (hs.a2 + st.a2) % 2 ^ 32,
   (hs.a3 + st.a3) % 2 ^ 32, (hs.a4 + st.a4) % 2 ^ 32, (hs.a5 + st.a5) % 2 ^ 32,
   (hs.a6 + st.a6) % 2 ^ 32, (hs.a7 + st.a7) % 2 ^ 32⟩

def bytesOfWord32 (x : Nat) : List Nat :=
  [x / 2 ^ 24 % 256, x / 2 ^ 16 % 256, x / 2 ^ 8 % 256, x % 256]

def bytes8BE (x : Nat) : List Nat :=
  [x / 2 ^ 56 % 256, x / 2 ^ 48 % 256, x / 2 ^ 40 % 256, x / 2 ^ 32 % 256,
   x / 2 ^ 24 % 256, x / 2 ^ 16 % 256, x / 2 ^ 8 % 256, x % 256]

def padMsg (msg : List Nat) : List Nat :=
  let z := (119 - msg.length % 64) % 64
  msg ++ 0x80 :: List.replicate z 0 ++ bytes8BE (8 * msg.length)

def toWords : List Nat → List Nat
  | b0 :: b1 :: b2 :: b3 :: rest => (b0 * 2 ^ 24 + b1 * 2 ^ 16 + b2 * 2 ^ 8 + b3) :: toWords rest
  | _ => []

def chunk16 : List Nat → List (List Nat)
  | w0 :: w1 :: w2 :: w3 :: w4 :: w5 :: w6 :: w7 ::
    w8 :: w9 :: w10 :: w11 :: w12 :: w13 :: w14 :: w15 :: rest =>
    [w0, w1, w2, w3, w4, w5, w6, w7, w8, w9, w10, w11, w12, w13, w14, w15] :: chunk16 rest
  | _ => []

def sha256 (msg : List Nat) : List Nat :=
  let hs := (chunk16 (toWords (padMsg msg))).foldl compressBlock sha256Init
  bytesOfWord32 hs.a0 ++ bytesOfWord32 hs.a1 ++ bytesOfWord32 hs.a2 ++ bytesOfWord32 hs.a3 ++
  bytesOfWord32 hs.a4 ++ bytesOfWord32 hs.a5 ++ bytesOfWord32 hs.a6 ++ bytesOfWord32 hs.a7

/-- The tagged-hash primitive of §4.1: the tag bytes are double-committed
before the message.  In src/service.js this is `bitcoin.crypto.taggedHash`. -/
def taggedHash (tag msg : List Nat) : List Nat :=
  sha256 (sha256 tag ++ sha256 tag ++ msg)

/-- ASCII bytes of the string "TapLeaf". -/
def tagTapLeaf : List Nat := [84, 97, 112, 76, 101, 97, 102]

/-- ASCII bytes of the string "TapBranch". -/
def tagTapBranch : List Nat := [84, 97, 112, 66, 114, 97, 110, 99, 104]

/-- ASCII bytes of the string "TapTweak". -/
def tagTapTweak : List Nat := [84, 97, 112, 84, 119, 101, 97, 107]

/-! ### Leaf and branch hashing (src/service.js) -/

/-- Embedding of `tapLeafHash` (src/service.js line 67): the message hashed is
`0xc0 ‖ script` — the implementation does not insert a compact-size length
prefix between the version byte and the script bytes. -/
def tapLeafHash (scriptBuffer : List Nat) : List Nat :=
  taggedHash tagTapLeaf (0xc0 :: scriptBuffer)

/-- Modelled from the spec: the `compact_size` variable-length integer
encoding (§4.2) — one byte for values below 0xFD, else a marker byte
followed by the value little-endian in 2, 4 or 8 bytes.  It is used only to
state what the spec says `tapLeafHash` commits to; the source never
computes it. -/
def compactSize (n : Nat) : List Nat :=
  if n < 0xFD then [n]
  else if n ≤ 0xFFFF then [0xFD, n % 256, n / 2 ^ 8 % 256]
  else if n ≤ 0xFFFFFFFF then
    [0xFE, n % 256, n / 2 ^ 8 % 256, n / 2 ^ 16 % 256, n / 2 ^ 24 % 256]
  else
    [0xFF, n % 256, n / 2 ^ 8 % 256, n / 2 ^ 16 % 256, n / 2 ^ 24 % 256,
     n / 2 ^ 32 % 256, n / 2 ^ 40 % 256, n / 2 ^ 48 % 256, n / 2 ^ 56 % 256]

/-- Modelled from the spec: the leaf-hash message the spec (§3, §4.2)
prescribes — `leaf_version_byte ‖ compact_size(len(script)) ‖ script`.
Kept separate from `tapLeafHash` so the two can be compared. -/
def tapLeafHashSpecified (scriptBuffer : List Nat) : List Nat :=
  taggedHash tagTapLeaf (0xc0 :: compactSize scriptBuffer.length ++ scriptBuffer)

/-- Embedding of Node's `Buffer.compare`: lexicographic comparison of byte
strings, the shorter being smaller when one is a proper prefix of the
other.  Returns -1, 0 or 1. -/
def bufCompare : List Nat → List Nat → Int
  | [], [] => 0
  | [], _ :: _ => -1
  | _ :: _, [] => 1
  | a :: as, b :: bs => if a < b then -1 else if b < a then 1 else bufCompare as bs

/-- Embedding of `tapBranchHash` (src/service.js line 75): the two children
are concatenated in byte-lexicographic order before tagged hashing. -/
def tapBranchHash (a b : List Nat) : List Nat :=
  if bufCompare a b = -1 then taggedHash tagTapBranch (a ++ b)
  else taggedHash tagTapBranch (b ++ a)

/-! ### Merkle commitment (src/service.js) -/

/-- One pass of the inner `for` loop of `computeMerkleRootFromLeafHashes`
(src/service.js lines 90-97): adjacent hashes are paired with
`tapBranchHash`; an unpaired trailing hash is propagated unchanged. -/
def pairUp : List (List Nat) → List (List Nat)
  | [] => []
  | [x] => [x]
  | x :: y :: rest => tapBranchHash x y :: pairUp rest

/-- The `while (current.length > 1)` loop of
`computeMerkleRootFromLeafHashes` (src/service.js line 88), written with an
explicit fuel so the recursion is structural; each pass strictly shrinks a
list of length at least 2, so a fuel equal to the initial length always
suffices (`merkleReduceF_fuel` below makes this exact). -/
def merkleReduceF : Nat → List (List Nat) → List (List Nat)
  | 0, cur => cur
  | fuel + 1, cur => if cur.length ≤ 1 then cur else merkleReduceF fuel (pairUp cur)

def merkleReduce (cur : List (List Nat)) : List (List Nat) :=
  merkleReduceF cur.length cur

/-- Embedding of `computeMerkleRootFromLeafHashes` (src/service.js lines
84-101): empty input yields the empty byte string, otherwise the levels are
reduced until one hash remains and that hash is returned. -/
def computeMerkleRootFromLeafHashes (leafHashArr : List (List Nat)) : List Nat :=
  match leafHashArr with
  | [] => []
  | l => (merkleReduce l).headD []

/-- Embedding of `computeMerkleRoot` (src/service.js lines 106-110): hashes
every leaf, returns the empty byte string for a single leaf, else reduces. -/
def computeMerkleRoot (scriptLeaves : List (List Nat)) : List Nat :=
  let leafHashes := scriptLeaves.map tapLeafHash
  if leafHashes.length = 1 then []
  else computeMerkleRootFromLeafHashes leafHashes

/-! ### Control block construction (src/service.js lines 141-184) -/

/-- The sibling-collecting `while` loop of `computeControlBlockForIndex`
(src/service.js lines 162-180): at each level the sibling of the node on
the path to `idx` is recorded when it exists, then the index is halved and
the next level is the paired-up layer. -/
def merklePathF : Nat → List (List Nat) → Nat → List (List Nat)
  | 0, _, _ => []
  | fuel + 1, layer, idx =>
    if layer.length ≤ 1 then []
    else
      let pairIndex := if idx % 2 = 0 then idx + 1 else idx - 1
      let here := if pairIndex < layer.length then [layer.getD pairIndex []] else []
      here ++ merklePathF fuel (pairUp layer) (idx / 2)

def merklePath (layer : List (List Nat)) (idx : Nat) : List (List Nat) :=
  merklePathF layer.length layer idx

/-- Embedding of `computeControlBlockForIndex` (src/service.js lines
141-184).  Throws (models `Except.error`) only when the internal key is not
33 bytes; otherwise returns header byte ‖ x-only key ‖ recorded siblings. -/
def computeControlBlockForIndex (internalPubkeyFull : List Nat)
    (scriptLeaves : List (List Nat)) (targetIndex : Nat) : Except String (List Nat) :=
  if internalPubkeyFull.length ≠ 33 then
    .error ("internalPubkeyFull must be 33-byte compressed public key")
  else
    let internalX := internalPubkeyFull.drop 1
    let parity := if internalPubkeyFull.headD 0 = 0x03 then 1 else 0
    let leafHashes := scriptLeaves.map tapLeafHash
    if leafHashes.length = 1 then
      .ok ((0xc0 ||| parity) :: internalX)
    else
      .ok ((0xc0 ||| parity) :: internalX ++ (merklePath leafHashes targetIndex).flatten)

/-! ### Key tweaking and spend construction (src/service.js lines 190-446)

The EC engine (`tiny-secp256k1`) and the transaction codec
(`bitcoinjs-lib`'s `Transaction.hashForWitnessV1`, `address.toOutputScript`,
`signSchnorr`) are external collaborators; they enter the embedding as
fields of `Externals`, so every theorem below quantifies over their
behaviour. -/

structure TxIn where
  txid : List Nat
  vout : Nat
  sequence : Nat
  deriving Repr, DecidableEq

structure TxOut where
  script : List Nat
  value : Int
  deriving Repr, DecidableEq

/-- The fields of a `bitcoin.Transaction` the source manipulates, plus the
witness stack assigned to input 0 via `setWitness(0, ...)`. -/
structure Transaction where
  version : Nat
  locktime : Nat
  ins : List TxIn
  outs : List TxOut
  witness : List (List Nat)
  deriving Repr, DecidableEq

/-- External collaborators: the EC engine and transaction codec.
`privateAdd` and `pointFromScalar` return `none` where the node binding
returns a falsy value (the source checks and throws). -/
structure Externals where
  privateAdd : List Nat → List Nat → Option (List Nat)
  pointFromScalar : List Nat → Bool → Option (List Nat)
  signSchnorr : List Nat → List Nat → List Nat
  hashForWitnessV1 : Transaction → Nat → List (List Nat) → List Int → Nat → List Nat
  toOutputScript : String → List Nat

/-- SIGHASH_DEFAULT, the hash-type constant passed in every sighash call. -/
def SIGHASH_DEFAULT : Nat := 0

/-- Result record of `tweakPrivateKey` (src/service.js line 209). -/
structure TweakResult where
  tweakedPriv : List Nat
  tweakedPub : List Nat
  tweakedX : List Nat
  parity : Nat
  deriving Repr, DecidableEq

/-- Embedding of `tweakPrivateKey` (src/service.js lines 190-215): length
checks, tweak scalar `TaggedHash("TapTweak", internalX ‖ merkleRoot)`,
scalar addition and point derivation delegated to the EC engine, every
engine failure surfaced as an error. -/
def tweakPrivateKey (ext : Externals) (privKey32 internalPubkeyX merkleRoot : List Nat) :
    Except String TweakResult :=
  if privKey32.length ≠ 32 then .error ("privKey must be 32 bytes")
  else if internalPubkeyX.length ≠ 32 then .error ("internalPubkeyX must be 32 bytes")
  else
    let t := taggedHash tagTapTweak (internalPubkeyX ++ merkleRoot)
    match ext.privateAdd privKey32 t with
    | none => .error ("tweak resulted in invalid private key (unlikely)")
    | some tweaked =>
      match ext.pointFromScalar tweaked true with
      | none => .error ("failed to compute tweaked pubkey")
      | some tweakedPub =>
        .ok ⟨tweaked, tweakedPub, (tweakedPub.drop 1).take 32,
             if tweakedPub.headD 0 = 0x03 then 1 else 0⟩

/-- The aggregate returned by `createTaprootAddress` (src/service.js lines
290-298), restricted to the fields the spend functions read. -/
structure TaprootInfo where
  internalPubkeyFull : List Nat
  internalX : List Nat
  leaves : List (List Nat)
  lockHeight : Nat
  merkleRoot : List Nat
  deriving Repr, DecidableEq

/-- A funding outpoint `{ txid, vout, value }` as the spend functions use it. -/
structure Utxo where
  txid : List Nat
  vout : Nat
  value : Int
  deriving Repr, DecidableEq

/-- Embedding of `buildAndBroadcastScriptPathSpend` (src/service.js lines
344-362), up to the point the raw transaction is handed to the RPC client:
it selects the leaf, derives the control block, builds a version-2
transaction with a final (0xffffffff) input sequence and sets the witness
to the caller-supplied signatures followed by the leaf script and the
control block.  No property of `sigs` is inspected. -/
def buildAndBroadcastScriptPathSpend (ext : Externals) (utxoObj : Utxo) (taprootInfo : TaprootInfo)
    (leafIndex : Nat) (sigs : List (List Nat)) (destination : String) (feeSats : Int) :
    Except String Transaction :=
  let leafScript := taprootInfo.leaves.getD leafIndex []
  match computeControlBlockForIndex taprootInfo.internalPubkeyFull taprootInfo.leaves leafIndex with
  | .error e => .error e
  | .ok controlBlock =>
    let tx : Transaction :=
      { version := 2, locktime := 0,
        ins := [⟨utxoObj.txid.reverse, utxoObj.vout, 0xffffffff⟩],
        outs := [⟨ext.toOutputScript destination, utxoObj.value - feeSats⟩],
        witness := sigs ++ [leafScript, controlBlock] }
    .ok tx

/-- Embedding of `spendCltvLeaf` (src/service.js lines 380-402), up to the
RPC broadcast: leaf index fixed to 1, transaction locktime set to the
aggregate's `lockHeight`, input sequence set to 0xfffffffe, a single
Schnorr signature over the script-path sighash for the timelock leaf, and
witness `[sig, leafScript, controlBlock]`.  The function receives no chain
height and performs no height comparison. -/
def spendCltvLeaf (ext : Externals) (utxoObj : Utxo) (taprootInfo : TaprootInfo)
    (privKey32 : List Nat) (destination : String) (feeSats : Int) :
    Except String Transaction :=
  let leafIndex := 1
  let leafScript := taprootInfo.leaves.getD leafIndex []
  match computeControlBlockForIndex taprootInfo.internalPubkeyFull taprootInfo.leaves leafIndex with
  | .error e => .error e
  | .ok controlBlock =>
    let tx0 : Transaction :=
      { version := 2, locktime := taprootInfo.lockHeight,
        ins := [⟨utxoObj.txid.reverse, utxoObj.vout, 0xfffffffe⟩],
        outs := [⟨ext.toOutputScript destination, utxoObj.value - feeSats⟩],
        witness := [] }
    let sighash := ext.hashForWitnessV1 tx0 0 [leafScript] [utxoObj.value] SIGHASH_DEFAULT
    let sig := ext.signSchnorr sighash privKey32
    .ok { tx0 with witness := [sig, leafScript, controlBlock] }

/-- Embedding of `spendKeyPath` (src/service.js lines 420-446), up to the
RPC broadcast: the internal private key is tweaked with the aggregate's
merkle root, the sighash is computed with an **empty** script list (the
key-path signal), and the witness is the single signature. -/
def spendKeyPath (ext : Externals) (utxoObj : Utxo) (internalPrivKey32 : List Nat)
    (taprootInfo : TaprootInfo) (destination : String) (feeSats : Int) :
    Except String Transaction :=
  let merkleRoot := taprootInfo.merkleRoot
  let internalX := taprootInfo.internalX
  match tweakPrivateKey ext internalPrivKey32 internalX merkleRoot with
  | .error e => .error e
  | .ok tweaked =>
    let tx0 : Transaction :=
      { version := 2, locktime := 0,
        ins := [⟨utxoObj.txid.reverse, utxoObj.vout, 0xffffffff⟩],
        outs := [⟨ext.toOutputScript destination, utxoObj.value - feeSats⟩],
        witness := [] }
    let sighash := ext.hashForWitnessV1 tx0 0 [] [utxoObj.value] SIGHASH_DEFAULT
    let sig := ext.signSchnorr sighash tweaked.tweakedPriv
    .ok { tx0 with witness := [sig] }

/-! ### Concrete example inputs used by witnesses and counterexamples -/

/-- Example externals: an EC engine / codec instantiation with totally
defined, obviously terminating behaviour, used to instantiate theorems that
quantify over the collaborators. -/
def extEx : Externals :=
  { privateAdd := fun a _ => some a,
    pointFromScalar := fun s _ => some (0x02 :: s.take 32),
    signSchnorr := fun _ _ => List.replicate 64 0,
    hashForWitnessV1 := fun _ _ _ _ _ => List.replicate 32 0,
    toOutputScript := fun _ => [0x51] }

/-- Example externals whose scalar addition always fails, exercising the
error path of `tweakPrivateKey`. -/
def extExFail : Externals :=
  { extEx with privateAdd := fun _ _ => none }

/-- A 33-byte compressed public key with even-parity prefix. -/
def keyEx : List Nat := 0x02 :: List.replicate 32 7

/-- An example aggregate with two leaves and lock height 100. -/
def infoEx : TaprootInfo :=
  { internalPubkeyFull := keyEx, internalX := List.replicate 32 7,
    leaves := [[0x51], [0x52]], lockHeight := 100, merkleRoot := [] }

/-- An example funding outpoint. -/
def utxoEx : Utxo := { txid := List.replicate 32 1, vout := 0, value := 100000 }

/-- An example destination address string. -/
def destEx : String := "dest"

/-! ### Basic facts about the hash layer -/

theorem sha256_length (m : List Nat) : (sha256 m).length = 32 := by
  simp [sha256, bytesOfWord32]

theorem taggedHash_length (tag m : List Nat) : (taggedHash tag m).length = 32 :=
  sha256_length _

theorem tapLeafHash_length (s : List Nat) : (tapLeafHash s).length = 32 :=
  taggedHash_length _ _

theorem tapBranchHash_length (a b : List Nat) : (tapBranchHash a b).length = 32 := by
  unfold tapBranchHash
  split <;> exact taggedHash_length _ _

theorem bufCompare_neg_asymm :
    ∀ a b : List Nat, bufCompare a b = -1 → bufCompare b a ≠ -1 := by
  intro a
  induction a with
  | nil =>
    intro b h
    cases b with
    | nil => simp [bufCompare] at h
    | cons y ys => simp [bufCompare]
  | cons x xs ih =>
    intro b h
    cases b with
    | nil => simp [bufCompare] at h
    | cons y ys =>
      simp only [bufCompare] at h ⊢
      rcases Nat.lt_trichotomy x y with hxy | hxy | hxy
      · simp [hxy, Nat.not_lt.mpr (Nat.le_of_lt hxy), Nat.lt_irrefl]
      · subst hxy
        simp [Nat.lt_irrefl] at h ⊢
        exact ih ys h
      · simp [hxy, Nat.not_lt.mpr (Nat.le_of_lt hxy)] at h

theorem bufCompare_eq_of_not_neg :
    ∀ a b : List Nat, bufCompare a b ≠ -1 → bufCompare b a ≠ -1 → a = b := by
  intro a
  induction a with
  | nil =>
    intro b h1 _
    cases b with
    | nil => rfl
    | cons y ys => simp [bufCompare] at h1
  | cons x xs ih =>
    intro b h1 h2
    cases b with
    | nil => simp [bufCompare] at h2
    | cons y ys =>
      simp only [bufCompare] at h1 h2
      rcases Nat.lt_trichotomy x y with hxy | hxy | hxy
      · simp [hxy] at h1
      · subst hxy
        simp [Nat.lt_irrefl] at h1 h2
        exact congrArg (x :: ·) (ih ys h1 h2)
      · simp [hxy] at h2

/-- Claim C9: `tapBranchHash` is order-independent of argument position:
for every pair of byte strings `a` and `b` (in particular every pair of
32-byte hashes), `tapBranchHash a b = tapBranchHash b a`, because the two
children are concatenated in byte-lexicographic order (smaller first)
before tagged hashing with tag "TapBranch". -/
theorem claim_C9 (a b : List Nat) : tapBranchHash a b = tapBranchHash b a := by
  unfold tapBranchHash
  by_cases hab : bufCompare a b = -1
  · have hba := bufCompare_neg_asymm a b hab
    simp [hab, hba]
  · by_cases hba : bufCompare b a = -1
    · simp [hab, hba]
    · have : a = b := bufCompare_eq_of_not_neg a b hab hba
      subst this
      simp

set_option maxRecDepth 200000 in
/-- Claim C1: the leaf hash actually computed by `tapLeafHash` is the
tagged hash of `0xc0 ‖ script` with **no** compact-size length prefix; at
the one-byte script `[0x51]` it therefore differs from the value
`TaggedHash("TapLeaf", 0xc0 ‖ compact_size(1) ‖ script)` that the spec (and
the source's own comment on line 68 of src/service.js) prescribes. -/
theorem claim_C1 :
    tapLeafHash [0x51] = taggedHash tagTapLeaf [0xc0, 0x51] ∧
    tapLeafHashSpecified [0x51] = taggedHash tagTapLeaf [0xc0, 0x01, 0x51] ∧
    tapLeafHash [0x51] ≠ tapLeafHashSpecified [0x51] := by
  refine ⟨rfl, rfl, ?_⟩
  decide

/-- Claim C4 (counterexample): `computeMerkleRoot` applied to the empty
leaf sequence returns the zero-length byte string — a root value — rather
than rejecting the input; no error channel is even present in its type,
faithfully to the source, which returns `Buffer.from([])`. -/
theorem claim_C4_cex : computeMerkleRoot ([] : List (List Nat)) = [] := rfl

/-- Claim C4 (amended): computing the Merkle root of an empty leaf
sequence is not rejected; both `computeMerkleRootFromLeafHashes` and
`computeMerkleRoot` return the zero-length value for it, indistinguishable
from the single-leaf result. -/
theorem claim_C4 :
    computeMerkleRootFromLeafHashes ([] : List (List Nat)) = [] ∧
    computeMerkleRoot ([] : List (List Nat)) = [] :=
  ⟨rfl, rfl⟩

/-! ### Facts about the Merkle reduction -/

theorem pairUp_length : ∀ l : List (List Nat), (pairUp l).length = (l.length + 1) / 2 := by
  intro l
  induction l using pairUp.induct with
  | case1 => simp [pairUp]
  | case2 x => simp [pairUp]
  | case3 x y rest ih =>
    simp only [pairUp, List.length_cons, ih]
    omega

theorem pairUp_mem :
    ∀ l : List (List Nat), (∀ x ∈ l, x.length = 32) →
      ∀ x ∈ pairUp l, x.length = 32 := by
  intro l
  induction l using pairUp.induct with
  | case1 => simp [pairUp]
  | case2 x => simp [pairUp]
  | case3 x y rest ih =>
    intro hl z hz
    simp only [pairUp, List.mem_cons] at hz
    rcases hz with hz | hz
    · subst hz
      exact tapBranchHash_length _ _
    · exact ih (fun w hw => hl w (by simp [hw])) z hz

/-- With a fuel at least the length of the input, the fuelled reduction
loop is independent of the fuel — so `merkleReduce`, which supplies the
input's own length, computes exactly the source's `while` loop. -/
theorem merkleReduceF_fuel :
    ∀ f1 f2 (cur : List (List Nat)), cur.length ≤ f1 → cur.length ≤ f2 →
      merkleReduceF f1 cur = merkleReduceF f2 cur := by
  intro f1
  induction f1 with
  | zero =>
    intro f2 cur h1 _
    have : cur = [] := List.length_eq_zero.mp (Nat.le_zero.mp h1)
    subst this
    cases f2 <;> simp [merkleReduceF]
  | succ f1 ih =>
    intro f2 cur h1 h2
    cases f2 with
    | zero =>
      have : cur = [] := List.length_eq_zero.mp (Nat.le_zero.mp h2)
      subst this
      simp [merkleReduceF]
    | succ f2 =>
      simp only [merkleReduceF]
      split
      · rfl
      · rename_i hgt
        have hlen := pairUp_length cur
        exact ih f2 (pairUp cur) (by omega) (by omega)

theorem merkleReduceF_length :
    ∀ fuel (cur : List (List Nat)), cur ≠ [] → cur.length ≤ fuel →
      (merkleReduceF fuel cur).length = 1 := by
  intro fuel
  induction fuel with
  | zero =>
    intro cur hne h
    exact absurd (List.length_eq_zero.mp (Nat.le_zero.mp h)) hne
  | succ fuel ih =>
    intro cur hne h
    simp only [merkleReduceF]
    split
    · rename_i hle
      have := List.length_pos.mpr hne
      omega
    · rename_i hgt
      have hlen := pairUp_length cur
      refine ih (pairUp cur) ?_ (by omega)
      have : 0 < (pairUp cur).length := by omega
      exact List.ne_nil_of_length_pos this

theorem merkleReduceF_mem :
    ∀ fuel (cur : List (List Nat)), (∀ x ∈ cur, x.length = 32) →
      ∀ x ∈ merkleReduceF fuel cur, x.length = 32 := by
  intro fuel
  induction fuel with
  | zero => intro cur hl; simpa [merkleReduceF] using hl
  | succ fuel ih =>
    intro cur hl
    simp only [merkleReduceF]
    split
    · exact hl
    · exact ih (pairUp cur) (pairUp_mem cur hl)

theorem computeMerkleRootFromLeafHashes_length (l : List (List Nat))
    (hne : l ≠ []) (hl : ∀ x ∈ l, x.length = 32) :
    (computeMerkleRootFromLeafHashes l).length = 32 := by
  match l, hne with
  | a :: rest, _ =>
    simp only [computeMerkleRootFromLeafHashes, merkleReduce]
    have h1 : (merkleReduceF (a :: rest).length (a :: rest)).length = 1 :=
      merkleReduceF_length _ _ (by simp) (Nat.le_refl _)
    have h2 := merkleReduceF_mem (a :: rest).length (a :: rest) hl
    match hm : merkleReduceF (a :: rest).length (a :: rest), h1 with
    | [x], _ =>
      rw [hm] at h2
      simpa using h2 x (by simp)

/-- Claim C5 (counterexample): the zero-length root is also produced for
the empty leaf sequence, which does not have exactly one element, so "the
root is empty if and only if the leaf sequence has exactly one element" is
false as stated over all inputs the code accepts. -/
theorem claim_C5_cex :
    computeMerkleRoot ([] : List (List Nat)) = [] ∧
    ([] : List (List Nat)).length ≠ 1 :=
  ⟨rfl, by decide⟩

/-- Claim C5 (amended to nonempty sequences): for every nonempty leaf
sequence the Merkle root is the zero-length value iff the sequence has
exactly one element, and for every two-leaf sequence `[a, b]` the root is
`tapBranchHash (tapLeafHash a) (tapLeafHash b)`. -/
theorem claim_C5 :
    (∀ leaves : List (List Nat), leaves ≠ [] →
      (computeMerkleRoot leaves = [] ↔ leaves.length = 1)) ∧
    (∀ a b : List Nat,
      computeMerkleRoot [a, b] = tapBranchHash (tapLeafHash a) (tapLeafHash b)) := by
  constructor
  · intro leaves hne
    simp only [computeMerkleRoot, List.length_map]
    split
    · rename_i h1
      simpa using h1
    · rename_i h1
      constructor
      · intro hroot
        have hlen : (computeMerkleRootFromLeafHashes (leaves.map tapLeafHash)).length = 32 := by
          refine computeMerkleRootFromLeafHashes_length _ ?_ ?_
          · simpa using hne
          · intro x hx
            rcases List.mem_map.mp hx with ⟨s, _, rfl⟩
            exact tapLeafHash_length s
        rw [hroot] at hlen
        simp at hlen
      · intro hone
        exact absurd (by simpa using hone) h1
  · intro a b
    rfl

/-- Claim C5 witness: the single-leaf tree `[[0x51]]` has the empty root
and the two-leaf tree `[[0x51], [0x52]]` has the branch hash of its two
leaf hashes as root. -/
theorem claim_C5_witness :
    (computeMerkleRoot [[0x51]] = [] ↔ ([[0x51]] : List (List Nat)).length = 1) ∧
    computeMerkleRoot [[0x51], [0x52]] =
      tapBranchHash (tapLeafHash [0x51]) (tapLeafHash [0x52]) :=
  ⟨claim_C5.1 [[0x51]] (by simp), claim_C5.2 [0x51] [0x52]⟩

/-! ### Facts about the sibling-path construction -/

/-- With a fuel at least the length of the layer, the fuelled path loop is
independent of the fuel, so `merklePath` computes exactly the source's
`while` loop. -/
theorem merklePathF_fuel :
    ∀ f1 f2 (layer : List (List Nat)) (idx : Nat), layer.length ≤ f1 → layer.length ≤ f2 →
      merklePathF f1 layer idx = merklePathF f2 layer idx := by
  intro f1
  induction f1 with
  | zero =>
    intro f2 layer idx h1 _
    have : layer = [] := List.length_eq_zero.mp (Nat.le_zero.mp h1)
    subst this
    cases f2 <;> simp [merklePathF]
  | succ f1 ih =>
    intro f2 layer idx h1 h2
    cases f2 with
    | zero =>
      have : layer = [] := List.length_eq_zero.mp (Nat.le_zero.mp h2)
      subst this
      simp [merklePathF]
    | succ f2 =>
      simp only [merklePathF]
      split
      · rfl
      · rename_i hgt
        have hlen := pairUp_length layer
        rw [ih f2 (pairUp layer) (idx / 2) (by omega) (by omega)]

theorem merklePathF_mem :
    ∀ fuel (layer : List (List Nat)) (idx : Nat), (∀ x ∈ layer, x.length = 32) →
      ∀ x ∈ merklePathF fuel layer idx, x.length = 32 := by
  intro fuel
  induction fuel with
  | zero => intro layer idx _ x hx; simp [merklePathF] at hx
  | succ fuel ih =>
    intro layer idx hl x hx
    by_cases hle : layer.length ≤ 1
    · simp [merklePathF, hle] at hx
    · simp only [merklePathF, if_neg hle, List.mem_append] at hx
      rcases hx with hx | hx
      · by_cases hlt : (if idx % 2 = 0 then idx + 1 else idx - 1) < layer.length
        · rw [if_pos hlt, List.mem_singleton] at hx
          subst hx
          rw [List.getD_eq_getElem _ _ hlt]
          exact hl _ (List.getElem_mem _)
        · rw [if_neg hlt] at hx
          simp at hx
      · exact ih (pairUp layer) (idx / 2) (pairUp_mem layer hl) x hx

theorem merklePath_mem (layer : List (List Nat)) (idx : Nat)
    (hl : ∀ x ∈ layer, x.length = 32) :
    ∀ x ∈ merklePath layer idx, x.length = 32 :=
  merklePathF_mem _ layer idx hl

theorem merklePath_le_one (layer : List (List Nat)) (idx : Nat)
    (h : layer.length ≤ 1) : merklePath layer idx = [] := by
  match layer, h with
  | [], _ => rfl
  | [x], _ => rfl

theorem merklePath_pair_zero (x y : List Nat) : merklePath [x, y] 0 = [y] := rfl

theorem merklePath_pair_one (x y : List Nat) : merklePath [x, y] 1 = [x] := rfl

theorem merklePath_pair_ge (x y : List Nat) (idx : Nat) (h : 2 ≤ idx) :
    merklePath [x, y] idx = [] := by
  simp only [merklePath, List.length_cons, List.length_nil, merklePathF, pairUp]
  have h1 : ¬ ((2 : Nat) ≤ 1) := by omega
  simp only [if_neg h1]
  have h2 : ¬ ((if idx % 2 = 0 then idx + 1 else idx - 1) < 2) := by
    split <;> omega
  simp [h2]

theorem flatten_length_of_mem (L : List (List Nat))
    (hl : ∀ x ∈ L, x.length = 32) : L.flatten.length = 32 * L.length := by
  induction L with
  | nil => simp
  | cons a rest ih =>
    simp only [List.flatten_cons, List.length_append, List.length_cons]
    rw [hl a (by simp), ih (fun x hx => hl x (by simp [hx]))]
    ring

/-- Whenever the internal key is 33 bytes, `computeControlBlockForIndex`
succeeds and returns the header byte followed by the x-only key and the
flattened sibling path (which is empty in the single-leaf branch). -/
theorem computeControlBlockForIndex_ok (key : List Nat) (leaves : List (List Nat))
    (idx : Nat) (h33 : key.length = 33) :
    computeControlBlockForIndex key leaves idx =
      .ok ((0xc0 ||| (if key.headD 0 = 0x03 then 1 else 0)) ::
           (key.drop 1 ++ (merklePath (leaves.map tapLeafHash) idx).flatten)) := by
  have hne : ¬ key.length ≠ 33 := by omega
  by_cases hone : leaves.length = 1
  · have hpath : merklePath (leaves.map tapLeafHash) idx = [] :=
      merklePath_le_one _ _ (by simp [hone])
    simp [computeControlBlockForIndex, hne, hone, hpath]
  · simp [computeControlBlockForIndex, hne, hone]

/-- Claim C6: for every 33-byte compressed internal key, the control block
is `header(0xC0 | parity) ‖ internalX(32B) ‖ siblings`, of length exactly
`1 + 32 + 32·(number of recorded siblings)`; in particular 33 bytes for a
one-leaf tree and 65 bytes for a two-leaf tree with a valid target index,
the single sibling being the other leaf's hash. -/
theorem claim_C6 (key : List Nat) (h33 : key.length = 33) :
    (∀ (leaves : List (List Nat)) (idx : Nat), ∃ cb,
        computeControlBlockForIndex key leaves idx = .ok cb ∧
        cb = (0xc0 ||| (if key.headD 0 = 0x03 then 1 else 0)) ::
             (key.drop 1 ++ (merklePath (leaves.map tapLeafHash) idx).flatten) ∧
        cb.length = 33 + 32 * (merklePath (leaves.map tapLeafHash) idx).length) ∧
    (∀ (leaf : List Nat) (idx : Nat),
        computeControlBlockForIndex key [leaf] idx =
          .ok ((0xc0 ||| (if key.headD 0 = 0x03 then 1 else 0)) :: key.drop 1) ∧
        ((0xc0 ||| (if key.headD 0 = 0x03 then 1 else 0)) :: key.drop 1).length = 33) ∧
    (∀ (l0 l1 : List Nat) (idx : Nat), idx < 2 → ∃ cb,
        computeControlBlockForIndex key [l0, l1] idx = .ok cb ∧
        cb = (0xc0 ||| (if key.headD 0 = 0x03 then 1 else 0)) ::
             (key.drop 1 ++ tapLeafHash (if idx = 0 then l1 else l0)) ∧
        cb.length = 65) := by
  have hdrop : (key.drop 1).length = 32 := by
    rw [List.length_drop, h33]
  refine ⟨?_, ?_, ?_⟩
  · intro leaves idx
    refine ⟨_, computeControlBlockForIndex_ok key leaves idx h33, rfl, ?_⟩
    have hmem : ∀ x ∈ merklePath (leaves.map tapLeafHash) idx, x.length = 32 := by
      refine merklePath_mem _ _ ?_
      intro x hx
      rcases List.mem_map.mp hx with ⟨s, _, rfl⟩
      exact tapLeafHash_length s
    rw [List.length_cons, List.length_append, hdrop, flatten_length_of_mem _ hmem]
    omega
  · intro leaf idx
    have h := computeControlBlockForIndex_ok key [leaf] idx h33
    have hpath : merklePath ([leaf].map tapLeafHash) idx = [] :=
      merklePath_le_one _ _ (by simp)
    rw [hpath] at h
    simp only [List.flatten_nil, List.append_nil] at h
    refine ⟨h, ?_⟩
    rw [List.length_cons, hdrop]
  · intro l0 l1 idx hidx
    have h := computeControlBlockForIndex_ok key [l0, l1] idx h33
    match idx, hidx with
    | 0, _ =>
      rw [show ([l0, l1].map tapLeafHash) = [tapLeafHash l0, tapLeafHash l1] from rfl,
          merklePath_pair_zero] at h
      refine ⟨_, h, by simp, ?_⟩
      rw [List.length_cons, List.length_append, hdrop]
      simp [tapLeafHash_length]
    | 1, _ =>
      rw [show ([l0, l1].map tapLeafHash) = [tapLeafHash l0, tapLeafHash l1] from rfl,
          merklePath_pair_one] at h
      refine ⟨_, h, by simp, ?_⟩
      rw [List.length_cons, List.length_append, hdrop]
      simp [tapLeafHash_length]

/-- Claim C6 witness: instantiation at the concrete even-parity key
`keyEx` and the concrete one- and two-leaf trees built from the scripts
`[0x51]` and `[0x52]`. -/
theorem claim_C6_witness :
    (∃ cb, computeControlBlockForIndex keyEx [[0x51]] 0 = .ok cb ∧
      cb = (0xc0 ||| (if keyEx.headD 0 = 0x03 then 1 else 0)) ::
           (keyEx.drop 1 ++ (merklePath ([[0x51]].map tapLeafHash) 0).flatten) ∧
      cb.length = 33 + 32 * (merklePath ([[0x51]].map tapLeafHash) 0).length) ∧
    (∃ cb, computeControlBlockForIndex keyEx [[0x51], [0x52]] 0 = .ok cb ∧
      cb = (0xc0 ||| (if keyEx.headD 0 = 0x03 then 1 else 0)) ::
           (keyEx.drop 1 ++ tapLeafHash [0x52]) ∧
      cb.length = 65) := by
  have h33 : keyEx.length = 33 := by simp [keyEx]
  obtain ⟨ha, _, hc⟩ := claim_C6 keyEx h33
  refine ⟨ha [[0x51]] 0, ?_⟩
  obtain ⟨cb, h1, h2, h3⟩ := hc [0x51] [0x52] 0 (by omega)
  exact ⟨cb, h1, by simpa using h2, h3⟩

/-- Claim C10: `computeControlBlockForIndex` never validates the target
index against the leaf count — for the two-leaf tree and any
`targetIndex ≥ 2` it returns the 33-byte control block consisting of just
the header byte and the internal x-only key, with no sibling hash and no
error. -/
theorem claim_C10 (key l0 l1 : List Nat) (idx : Nat)
    (h33 : key.length = 33) (hidx : 2 ≤ idx) :
    computeControlBlockForIndex key [l0, l1] idx =
      .ok ((0xc0 ||| (if key.headD 0 = 0x03 then 1 else 0)) :: key.drop 1) ∧
    ((0xc0 ||| (if key.headD 0 = 0x03 then 1 else 0)) :: key.drop 1).length = 33 := by
  have h := computeControlBlockForIndex_ok key [l0, l1] idx h33
  rw [show ([l0, l1].map tapLeafHash) = [tapLeafHash l0, tapLeafHash l1] from rfl,
      merklePath_pair_ge _ _ idx hidx] at h
  simp only [List.flatten_nil, List.append_nil] at h
  refine ⟨h, ?_⟩
  rw [List.length_cons, List.length_drop, h33]

/-- Claim C10 witness: at the concrete key `keyEx`, the two-leaf tree of
scripts `[0x51]`, `[0x52]`, and the out-of-range index 5, a 33-byte
header-plus-key control block is returned. -/
theorem claim_C10_witness :
    computeControlBlockForIndex keyEx [[0x51], [0x52]] 5 =
      .ok ((0xc0 ||| (if keyEx.headD 0 = 0x03 then 1 else 0)) :: keyEx.drop 1) ∧
    ((0xc0 ||| (if keyEx.headD 0 = 0x03 then 1 else 0)) :: keyEx.drop 1).length = 33 :=
  claim_C10 keyEx [0x51] [0x52] 5 (by simp [keyEx]) (by omega)

/-! ### Key tweaking (claim C8) -/

/-- Claim C8: for 32-byte private scalar and internal x-only key,
`tweakPrivateKey` derives the tweak as `TaggedHash("TapTweak",
internalX ‖ merkleRoot)`; whenever it returns a result, the returned
tweaked public key is exactly `pointFromScalar` of the returned tweaked
private scalar, and when the EC engine reports the summed scalar invalid
the operation fails with an error rather than retrying. -/
theorem claim_C8 (ext : Externals) (priv x root : List Nat)
    (hp : priv.length = 32) (hx : x.length = 32) :
    (∀ r, tweakPrivateKey ext priv x root = .ok r →
      ext.privateAdd priv (taggedHash tagTapTweak (x ++ root)) = some r.tweakedPriv ∧
      ext.pointFromScalar r.tweakedPriv true = some r.tweakedPub) ∧
    (ext.privateAdd priv (taggedHash tagTapTweak (x ++ root)) = none →
      ∃ e, tweakPrivateKey ext priv x root = .error e) := by
  have hp' : ¬ priv.length ≠ 32 := by omega
  have hx' : ¬ x.length ≠ 32 := by omega
  constructor
  · intro r hr
    simp only [tweakPrivateKey, if_neg hp', if_neg hx'] at hr
    split at hr
    · simp at hr
    · rename_i s hadd
      split at hr
      · simp at hr
      · rename_i p hpt
        simp only [Except.ok.injEq] at hr
        subst hr
        exact ⟨hadd, hpt⟩
  · intro hnone
    simp only [tweakPrivateKey, if_neg hp', if_neg hx', hnone]
    exact ⟨_, rfl⟩

/-- Claim C8 witness: at the always-succeeding engine `extEx` the result's
public key is `pointFromScalar` of its private scalar, and at the engine
`extExFail` whose scalar addition reports failure the call surfaces an
error. -/
theorem claim_C8_witness :
    (∃ r, tweakPrivateKey extEx (List.replicate 32 3) (List.replicate 32 7) [] = .ok r ∧
      extEx.privateAdd (List.replicate 32 3)
        (taggedHash tagTapTweak (List.replicate 32 7 ++ [])) = some r.tweakedPriv ∧
      extEx.pointFromScalar r.tweakedPriv true = some r.tweakedPub) ∧
    (∃ e, tweakPrivateKey extExFail (List.replicate 32 3) (List.replicate 32 7) [] =
      .error e) := by
  constructor
  · obtain ⟨h1, h2⟩ :=
      (claim_C8 extEx (List.replicate 32 3) (List.replicate 32 7) []
        (by simp) (by simp)).1 _ rfl
    exact ⟨_, rfl, h1, h2⟩
  · exact
      (claim_C8 extExFail (List.replicate 32 3) (List.replicate 32 7) []
        (by simp) (by simp)).2 rfl

/-! ### Spend construction (claims C2, C3, C7) -/

/-- Whenever the internal key is 33 bytes, the control block derivation
inside the spend planners succeeds. -/
theorem controlBlock_exists (key : List Nat) (leaves : List (List Nat)) (idx : Nat)
    (h33 : key.length = 33) :
    ∃ cb, computeControlBlockForIndex key leaves idx = .ok cb :=
  ⟨_, computeControlBlockForIndex_ok key leaves idx h33⟩

/-- The exact transaction `spendCltvLeaf` constructs, as a function of the
control block the inner derivation produced. -/
theorem spendCltvLeaf_build (ext : Externals) (utxo : Utxo) (info : TaprootInfo)
    (priv : List Nat) (dest : String) (fee : Int)
    (cb : List Nat)
    (hcb : computeControlBlockForIndex info.internalPubkeyFull info.leaves 1 = .ok cb) :
    spendCltvLeaf ext utxo info priv dest fee = .ok
      { version := 2, locktime := info.lockHeight,
        ins := [⟨utxo.txid.reverse, utxo.vout, 0xfffffffe⟩],
        outs := [⟨ext.toOutputScript dest, utxo.value - fee⟩],
        witness := [ext.signSchnorr (ext.hashForWitnessV1
            { version := 2, locktime := info.lockHeight,
              ins := [⟨utxo.txid.reverse, utxo.vout, 0xfffffffe⟩],
              outs := [⟨ext.toOutputScript dest, utxo.value - fee⟩],
              witness := [] } 0 [info.leaves.getD 1 []] [utxo.value] SIGHASH_DEFAULT) priv,
          info.leaves.getD 1 [], cb] } := by
  simp only [spendCltvLeaf, hcb]

/-- Claim C2 (counterexample): the timelock spend builder contains no
chain-height precondition at all — it does not even receive the current
height — so at lock height 100 (and implicitly any ambient chain height,
including 99) it returns a fully built witness transaction instead of a
`PreconditionFailure`. -/
theorem claim_C2_cex :
    ∃ tx, spendCltvLeaf extEx utxoEx infoEx (List.replicate 32 3) destEx 500 = .ok tx ∧
      tx.locktime = 100 ∧ tx.witness ≠ [] := by
  obtain ⟨cb, hcb⟩ :=
    controlBlock_exists infoEx.internalPubkeyFull infoEx.leaves 1 (by simp [infoEx, keyEx])
  exact ⟨_, spendCltvLeaf_build extEx utxoEx infoEx (List.replicate 32 3) destEx 500 cb hcb,
    rfl, by simp⟩

/-- Claim C2 (amended): `spendCltvLeaf` performs no chain-height check;
for every input with a 33-byte internal key (and the two-leaf tree the
system builds) it unconditionally produces the witness transaction whose
locktime equals the aggregate's `lockHeight` and whose input sequence is
0xfffffffe — strictly below the final sentinel 0xffffffff, so locktime
checking is enabled — with witness stack `[sig, leafScript, controlBlock]`;
enforcement of `currentChainHeight ≥ lockHeight` is left entirely to the
network that receives the broadcast. -/
theorem claim_C2 (ext : Externals) (utxo : Utxo) (info : TaprootInfo)
    (priv : List Nat) (dest : String) (fee : Int)
    (h33 : info.internalPubkeyFull.length = 33)
    (_hlv : 2 ≤ info.leaves.length) :
    ∃ cb tx,
      computeControlBlockForIndex info.internalPubkeyFull info.leaves 1 = .ok cb ∧
      spendCltvLeaf ext utxo info priv dest fee = .ok tx ∧
      tx.locktime = info.lockHeight ∧
      tx.ins = [⟨utxo.txid.reverse, utxo.vout, 0xfffffffe⟩] ∧
      (0xfffffffe : Nat) < 0xffffffff ∧
      tx.witness = [ext.signSchnorr (ext.hashForWitnessV1
          { version := 2, locktime := info.lockHeight,
            ins := [⟨utxo.txid.reverse, utxo.vout, 0xfffffffe⟩],
            outs := [⟨ext.toOutputScript dest, utxo.value - fee⟩],
            witness := [] } 0 [info.leaves.getD 1 []] [utxo.value] SIGHASH_DEFAULT) priv,
        info.leaves.getD 1 [], cb] := by
  obtain ⟨cb, hcb⟩ := controlBlock_exists info.internalPubkeyFull info.leaves 1 h33
  exact ⟨cb, _, hcb, spendCltvLeaf_build ext utxo info priv dest fee cb hcb,
    rfl, rfl, by omega, rfl⟩

/-- Claim C2 witness: instantiation at the concrete aggregate `infoEx`
(lock height 100, two leaves) and engine `extEx`. -/
theorem claim_C2_witness :
    ∃ cb tx,
      computeControlBlockForIndex infoEx.internalPubkeyFull infoEx.leaves 1 = .ok cb ∧
      spendCltvLeaf extEx utxoEx infoEx (List.replicate 32 9) destEx 500 = .ok tx ∧
      tx.locktime = infoEx.lockHeight ∧
      tx.ins = [⟨utxoEx.txid.reverse, utxoEx.vout, 0xfffffffe⟩] ∧
      (0xfffffffe : Nat) < 0xffffffff ∧
      tx.witness = [extEx.signSchnorr (extEx.hashForWitnessV1
          { version := 2, locktime := infoEx.lockHeight,
            ins := [⟨utxoEx.txid.reverse, utxoEx.vout, 0xfffffffe⟩],
            outs := [⟨extEx.toOutputScript destEx, utxoEx.value - 500⟩],
            witness := [] } 0 [infoEx.leaves.getD 1 []] [utxoEx.value] SIGHASH_DEFAULT)
          (List.replicate 32 9),
        infoEx.leaves.getD 1 [], cb] :=
  claim_C2 extEx utxoEx infoEx (List.replicate 32 9) destEx 500
    (by simp [infoEx, keyEx]) (by simp [infoEx])

/-- The exact transaction `buildAndBroadcastScriptPathSpend` constructs, as
a function of the control block the inner derivation produced: the
caller-supplied signature list is spliced into the witness unexamined. -/
theorem buildScriptPathSpend_build (ext : Externals) (utxo : Utxo) (info : TaprootInfo)
    (leafIndex : Nat) (sigs : List (List Nat)) (dest : String) (fee : Int)
    (cb : List Nat)
    (hcb : computeControlBlockForIndex info.internalPubkeyFull info.leaves leafIndex =
      .ok cb) :
    buildAndBroadcastScriptPathSpend ext utxo info leafIndex sigs dest fee = .ok
      { version := 2, locktime := 0,
        ins := [⟨utxo.txid.reverse, utxo.vout, 0xffffffff⟩],
        outs := [⟨ext.toOutputScript dest, utxo.value - fee⟩],
        witness := sigs ++ [info.leaves.getD leafIndex [], cb] } := by
  simp only [buildAndBroadcastScriptPathSpend, hcb]

/-- Claim C3 (counterexample): the script-path spend builder performs no
validation of the supplied signature list — with a single 64-byte
signature, and even with a single malformed 3-byte signature, it still
returns a fully assembled witness transaction instead of a
`PreconditionFailure`. -/
theorem claim_C3_cex :
    (∃ tx, buildAndBroadcastScriptPathSpend extEx utxoEx infoEx 0
        [List.replicate 64 0] destEx 500 = .ok tx ∧
      tx.witness.length = 3) ∧
    (∃ tx, buildAndBroadcastScriptPathSpend extEx utxoEx infoEx 0
        [[1, 2, 3]] destEx 500 = .ok tx) := by
  obtain ⟨cb, hcb⟩ :=
    controlBlock_exists infoEx.internalPubkeyFull infoEx.leaves 0 (by simp [infoEx, keyEx])
  constructor
  · exact ⟨_, buildScriptPathSpend_build extEx utxoEx infoEx 0
      [List.replicate 64 0] destEx 500 cb hcb, by simp⟩
  · exact ⟨_, buildScriptPathSpend_build extEx utxoEx infoEx 0
      [[1, 2, 3]] destEx 500 cb hcb⟩

/-- Claim C3 (amended): `buildAndBroadcastScriptPathSpend` validates
nothing about the supplied signatures: for **every** signature list
(correct 2-of-3 submission, a single signature, or malformed entries) and
every in-range leaf index with a 33-byte internal key, it assembles and
returns the witness `sigs ++ [leafScript, controlBlock]`; signature-count
and signature-format enforcement is left to the network's script
evaluation. -/
theorem claim_C3 (ext : Externals) (utxo : Utxo) (info : TaprootInfo)
    (leafIndex : Nat) (sigs : List (List Nat)) (dest : String) (fee : Int)
    (h33 : info.internalPubkeyFull.length = 33)
    (_hleaf : leafIndex < info.leaves.length) :
    ∃ cb tx,
      computeControlBlockForIndex info.internalPubkeyFull info.leaves leafIndex = .ok cb ∧
      buildAndBroadcastScriptPathSpend ext utxo info leafIndex sigs dest fee = .ok tx ∧
      tx.witness = sigs ++ [info.leaves.getD leafIndex [], cb] := by
  obtain ⟨cb, hcb⟩ := controlBlock_exists info.internalPubkeyFull info.leaves leafIndex h33
  exact ⟨cb, _, hcb,
    buildScriptPathSpend_build ext utxo info leafIndex sigs dest fee cb hcb, rfl⟩

/-- Claim C3 witness: a two-signature submission for leaf 0 of the
concrete aggregate assembles the expected five-element witness stack. -/
theorem claim_C3_witness :
    ∃ cb tx,
      computeControlBlockForIndex infoEx.internalPubkeyFull infoEx.leaves 0 = .ok cb ∧
      buildAndBroadcastScriptPathSpend extEx utxoEx infoEx 0
        [List.replicate 64 1, List.replicate 64 2] destEx 500 = .ok tx ∧
      tx.witness = [List.replicate 64 1, List.replicate 64 2] ++
        [infoEx.leaves.getD 0 [], cb] :=
  claim_C3 extEx utxoEx infoEx 0 [List.replicate 64 1, List.replicate 64 2] destEx 500
    (by simp [infoEx, keyEx]) (by simp [infoEx])

/-- Claim C7: a key-path spend invokes the external sighash computation
with an empty script list (the key-path signal) and produces a witness
stack of exactly one element — the 64-byte Schnorr signature over that
sighash, made with the tweaked private scalar — with no leaf script and no
control block. -/
theorem claim_C7 (ext : Externals) (utxo : Utxo) (priv : List Nat)
    (info : TaprootInfo) (dest : String) (fee : Int)
    (hsig : ∀ d k, (ext.signSchnorr d k).length = 64) :
    ∀ tx, spendKeyPath ext utxo priv info dest fee = .ok tx →
    ∃ tw, tweakPrivateKey ext priv info.internalX info.merkleRoot = .ok tw ∧
      tx.witness = [ext.signSchnorr (ext.hashForWitnessV1
        { version := 2, locktime := 0,
          ins := [⟨utxo.txid.reverse, utxo.vout, 0xffffffff⟩],
          outs := [⟨ext.toOutputScript dest, utxo.value - fee⟩],
          witness := [] } 0 [] [utxo.value] SIGHASH_DEFAULT) tw.tweakedPriv] ∧
      tx.witness.length = 1 ∧ (tx.witness.headD []).length = 64 := by
  intro tx htx
  simp only [spendKeyPath] at htx
  cases htw : tweakPrivateKey ext priv info.internalX info.merkleRoot with
  | error e => rw [htw] at htx; simp at htx
  | ok tw =>
    rw [htw] at htx
    simp only [Except.ok.injEq] at htx
    subst htx
    exact ⟨tw, rfl, rfl, rfl, by simp [hsig]⟩

/-- Claim C7 witness: at the concrete engine `extEx` (whose signatures are
64 bytes) the key-path spend yields a single-element witness holding a
64-byte signature. -/
theorem claim_C7_witness :
    ∃ tx, spendKeyPath extEx utxoEx (List.replicate 32 3) infoEx destEx 500 = .ok tx ∧
      tx.witness.length = 1 ∧ (tx.witness.headD []).length = 64 := by
  obtain ⟨tw, _, _, hlen, hhead⟩ :=
    claim_C7 extEx utxoEx (List.replicate 32 3) infoEx destEx 500
      (fun d k => by simp [extEx]) _ rfl
  exact ⟨_, rfl, hlen, hhead⟩
